import Mathlib

/-!
Shallow embedding of wfrank/qtools: a reconciler that syncs CSV-derived
server groups against QRadar reference sets.

Sources embedded:
- the extractor and reconciler in the main package (extractServerGroups,
  the per-group sync goroutine, the orphan-deletion goroutine, the
  deletion-task poll loop, and the pre-flight exit paths of main);
- the QRadar client surface in pkg/qradar/qradar.go (ReferenceSet and
  DeletionTask records; the remote calls are modelled as an environment
  of responses, since their effects are HTTP I/O).
-/

namespace QTools

/-- Mirrors `qradar.ReferenceSet` (pkg/qradar/qradar.go lines 16-23). -/
structure ReferenceSet where
  name : String
  elementType : String
  timeoutType : String
  timeToLive : String
  creationTime : Nat
  numberOfElements : Nat
deriving DecidableEq, Repr

/-- Mirrors `qradar.DeletionTask` (pkg/qradar/qradar.go lines 25-35). -/
structure DeletionTask where
  id : Nat
  created : Nat
  started : Nat
  modified : Nat
  completed : Nat
  name : String
  status : String
  message : String
  createdBy : String
deriving DecidableEq, Repr

/-- The managed naming convention, constant `unixRefSetPrefix` in the main
package (line 18). -/
def unixRefSetPfx : String := "Managed UNIX Devices - "

/-- Go `strings.Join(elems, sep)`: elements concatenated with `sep`
placed between consecutive elements. -/
def stringsJoin (sep : String) : List String → String
  | [] => ""
  | [s] => s
  | s :: rest => s ++ sep ++ stringsJoin sep rest

/-- Go `groups[g] = append(groups[g], v)` on a map modelled as an
association list: append `v` to the entry for `g`, creating the entry
when absent. -/
def appendMember (groups : List (String × List String)) (g v : String) :
    List (String × List String) :=
  match groups with
  | [] => [(g, [v])]
  | (k, vs) :: rest =>
    if k = g then (k, vs ++ [v]) :: rest else (k, vs) :: appendMember rest g v

/-- One iteration of the extraction loop body (main package lines 39-43):
reads `line[2]` and `line[1]` (out of bounds when the row has fewer than
three fields — Go panics, embedded as `none`), appends the identifier
`line[1]` to the coarse group named from `line[2]` and to the fine group
named from `line[2:]` joined by " - ". -/
def processLine (groups : List (String × List String)) (line : List String) :
    Option (List (String × List String)) :=
  match line.get? 2, line.get? 1 with
  | some c2, some ident =>
    let g1 := unixRefSetPfx ++ c2
    let groups1 := appendMember groups g1 ident
    let g2 := unixRefSetPfx ++ stringsJoin " - " (line.drop 2)
    some (appendMember groups1 g2 ident)
  | _, _ => none

/-- `extractServerGroups` (main package lines 21-47) applied to the rows
already parsed from the CSV file: the first row (header) is skipped, the
remaining rows are folded through `processLine`. -/
def extractServerGroups (lines : List (List String)) :
    Option (List (String × List String)) :=
  match lines with
  | [] => some []
  | _header :: rest => rest.foldlM processLine []

/-- Acceptance condition of Go `encoding/csv` `Reader.ReadAll` as used by
`extractServerGroups` with default settings, restricted to field counts:
with `FieldsPerRecord = 0` every record must have the same number of
fields as the first record. (The csv reader is an external collaborator;
this captures the documented field-count rule the claims rely on.) -/
def csvAccepts (lines : List (List String)) : Bool :=
  match lines with
  | [] => true
  | l :: rest => rest.all (fun r => r.length == l.length)

/-! ### Lemmas about `appendMember` -/

theorem lookup_appendMember_self (gs : List (String × List String)) (g v : String) :
    List.lookup g (appendMember gs g v) = some ((List.lookup g gs).getD [] ++ [v]) := by
  induction gs with
  | nil => simp [appendMember, List.lookup]
  | cons p rest ih =>
    obtain ⟨k, vs⟩ := p
    by_cases hk : k = g
    · subst hk
      simp [appendMember, List.lookup]
    · have hne : (g == k) = false := by
        simp [beq_iff_eq]
        exact fun h => hk h.symm
      simp [appendMember, hk, List.lookup, hne, ih]

theorem lookup_appendMember_ne (gs : List (String × List String)) (g v g' : String)
    (h : g' ≠ g) : List.lookup g' (appendMember gs g v) = List.lookup g' gs := by
  induction gs with
  | nil =>
    simp [appendMember, List.lookup, beq_eq_false_iff_ne.mpr h]
  | cons p rest ih =>
    obtain ⟨k, vs⟩ := p
    by_cases hk : k = g
    · subst hk
      simp [appendMember, List.lookup, beq_eq_false_iff_ne.mpr h, ih]
    · simp [appendMember, hk, List.lookup, ih]

theorem stringsJoin_cons_cons (sep a b : String) (l : List String) :
    stringsJoin sep (a :: b :: l) = a ++ sep ++ stringsJoin sep (b :: l) := by
  simp [stringsJoin]

/-- **C5**: extraction drops the first (header) row and folds the rest;
a data row with at least two columns beyond the identifier column (four
or more fields) appends the identifier (field 1) to exactly two groups:
the coarse group named from field 2 and the fine group named from
fields 2.. joined by " - "; the two names differ, each receives the
identifier exactly once, and no other group is touched. -/
theorem extract_row_appends_to_two_groups
    (groups : List (String × List String)) (a b c d : String) (rest : List String)
    (g1 g2 : String) (hg1 : g1 = unixRefSetPfx ++ c)
    (hg2 : g2 = unixRefSetPfx ++ stringsJoin " - " (c :: d :: rest)) :
    (∀ hdr rows, extractServerGroups (hdr :: rows) = rows.foldlM processLine []) ∧
    g1 ≠ g2 ∧
    ∃ groups2, processLine groups (a :: b :: c :: d :: rest) = some groups2 ∧
      List.lookup g1 groups2 = some ((List.lookup g1 groups).getD [] ++ [b]) ∧
      List.lookup g2 groups2 = some ((List.lookup g2 groups).getD [] ++ [b]) ∧
      ∀ g, g ≠ g1 → g ≠ g2 → List.lookup g groups2 = List.lookup g groups := by
  have hne : g1 ≠ g2 := by
    subst hg1 hg2
    intro h
    have hlen := congrArg String.length h
    rw [stringsJoin_cons_cons] at hlen
    simp only [String.length_append] at hlen
    have : (" - ").length = 3 := by decide
    omega
  refine ⟨fun hdr rows => rfl, hne, appendMember (appendMember groups g1 b) g2 b, ?_, ?_, ?_, ?_⟩
  · simp [processLine, hg1, hg2, List.get?]
  · rw [lookup_appendMember_ne _ _ _ _ hne, lookup_appendMember_self]
  · rw [lookup_appendMember_self, lookup_appendMember_ne _ _ _ _ (Ne.symm hne)]
  · intro g h1 h2
    rw [lookup_appendMember_ne _ _ _ _ h2, lookup_appendMember_ne _ _ _ _ h1]

/-- Witness for C5 at a concrete row. -/
theorem extract_row_appends_to_two_groups_witness :
    (∀ hdr rows, extractServerGroups (hdr :: rows) = rows.foldlM processLine []) ∧
    "Managed UNIX Devices - east" ≠ "Managed UNIX Devices - east - db" ∧
    ∃ groups2,
      processLine [] ["s1", "10.0.0.1", "east", "db"] = some groups2 ∧
      List.lookup "Managed UNIX Devices - east" groups2 =
        some ((List.lookup "Managed UNIX Devices - east" ([] : List (String × List String))).getD []
          ++ ["10.0.0.1"]) ∧
      List.lookup "Managed UNIX Devices - east - db" groups2 =
        some ((List.lookup "Managed UNIX Devices - east - db"
          ([] : List (String × List String))).getD [] ++ ["10.0.0.1"]) ∧
      ∀ g, g ≠ "Managed UNIX Devices - east" → g ≠ "Managed UNIX Devices - east - db" →
        List.lookup g groups2 = List.lookup g ([] : List (String × List String)) :=
  extract_row_appends_to_two_groups [] "s1" "10.0.0.1" "east" "db" []
    "Managed UNIX Devices - east" "Managed UNIX Devices - east - db"
    (by decide) (by decide)

/-- **C10**: a data row with exactly one column beyond the identifier
column (three fields total) derives equal coarse and fine names — the
join of the single column is that column — so the identifier is appended
twice to one single group, producing a duplicate member entry. -/
theorem extract_row_three_fields_duplicates
    (groups : List (String × List String)) (a b c : String) :
    stringsJoin " - " [c] = c ∧
    processLine groups [a, b, c] =
      some (appendMember (appendMember groups (unixRefSetPfx ++ c) b) (unixRefSetPfx ++ c) b) ∧
    List.lookup (unixRefSetPfx ++ c)
        (appendMember (appendMember groups (unixRefSetPfx ++ c) b) (unixRefSetPfx ++ c) b) =
      some ((List.lookup (unixRefSetPfx ++ c) groups).getD [] ++ [b, b]) := by
  refine ⟨rfl, ?_, ?_⟩
  · simp [processLine, stringsJoin, List.get?]
  · rw [lookup_appendMember_self, lookup_appendMember_self]
    simp

/-- **C6**: the concrete input of one header row plus the two rows
(_, "10.0.0.1", "east", "db") and (_, "10.0.0.2", "east", "db") extracts
to exactly the two groups "Managed UNIX Devices - east" and
"Managed UNIX Devices - east - db", each with members
[10.0.0.1, 10.0.0.2]. -/
theorem extract_concrete_two_rows :
    extractServerGroups
      [["host", "ip", "region", "class"],
       ["s1", "10.0.0.1", "east", "db"],
       ["s2", "10.0.0.2", "east", "db"]] =
    some [("Managed UNIX Devices - east", ["10.0.0.1", "10.0.0.2"]),
          ("Managed UNIX Devices - east - db", ["10.0.0.1", "10.0.0.2"])] := by
  decide

/-- **C9**: there is tabular input the CSV parser accepts — every row,
header included, has exactly two fields — on which extraction reaches the
unguarded out-of-bounds access at column index 2 of a data row; in the
embedding the partial access yields `none`. -/
theorem extract_oob_on_accepted_two_field_rows :
    csvAccepts [["host", "ip"], ["srv1", "10.0.0.1"]] = true ∧
    extractServerGroups [["host", "ip"], ["srv1", "10.0.0.1"]] = none := by
  decide

/-! ### Remote requests as events, and the deletion-task poll loop -/

/-- One outbound mutating or polling request issued by a unit of work,
mirroring the four client calls used by main: `DeleteReferenceSet(name,
purgeOnly)`, `DeleteReferenceSetTaskStatus(taskID)`,
`CreateReferenceSet(name)`, `BulkLoadReferenceSet(name, servers)`. -/
inductive Event where
  | deleteReq (name : String) (purgeOnly : Bool)
  | pollReq (taskID : Nat)
  | createReq (name : String)
  | bulkLoadReq (name : String) (servers : List String)
deriving DecidableEq, Repr

/-- Result of the poll loop: the task was seen COMPLETED, the retry
budget ran out (`log.Fatalf("timeout ...")` branch), or a status lookup
failed (`log.Fatalf("error polling ...")` branch). -/
inductive PollOutcome where
  | completed (t : DeletionTask)
  | timeout (t : DeletionTask)
  | httpError (e : String)
deriving DecidableEq, Repr

/-- The poll loop of main (lines 95-109, textually repeated at 143-157):
`for retry := 5; task.Status != "COMPLETED" && retry > 0; retry--`, with
one `DeleteReferenceSetTaskStatus(task.ID)` call per iteration, followed
by the post-loop COMPLETED check. `lookup a i` is the response to the
lookup issued at attempt index `a` for task ID `i`; the event list
records one `pollReq` per issued lookup. The fixed 1-second sleep
between attempts is real time and is not part of the embedded state. -/
def pollLoop (lookup : Nat → Nat → Except String DeletionTask)
    (t : DeletionTask) (retry : Nat) (attempt : Nat) :
    PollOutcome × List Event :=
  match retry with
  | 0 => if t.status = "COMPLETED" then (.completed t, []) else (.timeout t, [])
  | r + 1 =>
    if t.status = "COMPLETED" then (.completed t, [])
    else
      match lookup attempt t.id with
      | .error e => (.httpError e, [.pollReq t.id])
      | .ok t2 =>
        ((pollLoop lookup t2 r (attempt + 1)).1,
          .pollReq t.id :: (pollLoop lookup t2 r (attempt + 1)).2)

theorem pollLoop_events_length_le (lookup : Nat → Nat → Except String DeletionTask)
    (t : DeletionTask) (retry attempt : Nat) :
    (pollLoop lookup t retry attempt).2.length ≤ retry := by
  induction retry generalizing t attempt with
  | zero => by_cases h : t.status = "COMPLETED" <;> simp [pollLoop, h]
  | succ r ih =>
    by_cases h : t.status = "COMPLETED"
    · simp [pollLoop, h]
    · rcases hl : lookup attempt t.id with e | t2
      · simp [pollLoop, h, hl]
      · simp only [pollLoop, h, hl, if_neg h, List.length_cons]
        exact Nat.succ_le_succ (ih t2 (attempt + 1))

theorem pollLoop_events_all_pollReq (lookup : Nat → Nat → Except String DeletionTask)
    (t : DeletionTask) (retry attempt : Nat) :
    ∀ ev ∈ (pollLoop lookup t retry attempt).2, ∃ i, ev = Event.pollReq i := by
  induction retry generalizing t attempt with
  | zero => by_cases h : t.status = "COMPLETED" <;> simp [pollLoop, h]
  | succ r ih =>
    by_cases h : t.status = "COMPLETED"
    · simp [pollLoop, h]
    · rcases hl : lookup attempt t.id with e | t2
      · simp [pollLoop, h, hl]
      · simp [pollLoop, h, hl]
        exact fun ev hev => ih t2 (attempt + 1) ev hev

theorem pollLoop_completed_status (lookup : Nat → Nat → Except String DeletionTask)
    (t : DeletionTask) (retry attempt : Nat) (t2 : DeletionTask)
    (h : (pollLoop lookup t retry attempt).1 = .completed t2) :
    t2.status = "COMPLETED" := by
  induction retry generalizing t attempt with
  | zero =>
    by_cases hc : t.status = "COMPLETED" <;> simp [pollLoop, hc] at h
    exact h ▸ hc
  | succ r ih =>
    by_cases hc : t.status = "COMPLETED"
    · simp [pollLoop, hc] at h
      exact h ▸ hc
    · rcases hl : lookup attempt t.id with e | t3
      · simp [pollLoop, hc, hl] at h
      · simp only [pollLoop, hc, hl, if_neg hc] at h
        exact ih t3 (attempt + 1) h

theorem pollLoop_timeout_exhausts (lookup : Nat → Nat → Except String DeletionTask)
    (t : DeletionTask) (retry attempt : Nat) (t2 : DeletionTask)
    (h : (pollLoop lookup t retry attempt).1 = .timeout t2) :
    t2.status ≠ "COMPLETED" ∧ (pollLoop lookup t retry attempt).2.length = retry := by
  induction retry generalizing t attempt with
  | zero =>
    by_cases hc : t.status = "COMPLETED" <;> simp [pollLoop, hc] at h ⊢
    exact h ▸ hc
  | succ r ih =>
    by_cases hc : t.status = "COMPLETED"
    · simp [pollLoop, hc] at h
    · rcases hl : lookup attempt t.id with e | t3
      · simp [pollLoop, hc, hl] at h
      · simp only [pollLoop, hc, hl, if_neg hc] at h ⊢
        obtain ⟨h1, h2⟩ := ih t3 (attempt + 1) h
        exact ⟨h1, by simp [h2]⟩

/-- **C2**: the deletion-task polling loop terminates: with the fixed
retry budget of 5 it issues at most 5 status lookups; a completed
outcome carries status COMPLETED; when the budget is exhausted without
reaching COMPLETED the outcome is the timeout failure, reached after
exactly 5 lookups rather than by looping forever; and as soon as a
lookup returns a task with status COMPLETED, the loop stops without
issuing any further lookup. -/
theorem poll_loop_terminates_within_budget
    (lookup : Nat → Nat → Except String DeletionTask) (t : DeletionTask) :
    (pollLoop lookup t 5 0).2.length ≤ 5 ∧
    (∀ t2, (pollLoop lookup t 5 0).1 = .completed t2 → t2.status = "COMPLETED") ∧
    (∀ t2, (pollLoop lookup t 5 0).1 = .timeout t2 →
      t2.status ≠ "COMPLETED" ∧ (pollLoop lookup t 5 0).2.length = 5) ∧
    (∀ r attempt t0 t2, t0.status ≠ "COMPLETED" → lookup attempt t0.id = .ok t2 →
      t2.status = "COMPLETED" →
      pollLoop lookup t0 (r + 1) attempt = (.completed t2, [.pollReq t0.id])) := by
  refine ⟨pollLoop_events_length_le lookup t 5 0,
    fun t2 h => pollLoop_completed_status lookup t 5 0 t2 h,
    fun t2 h => pollLoop_timeout_exhausts lookup t 5 0 t2 h,
    fun r attempt t0 t2 hnc hl hc => ?_⟩
  cases r <;> simp [pollLoop, hnc, hl, hc]

/-- Witness for C2: a task that always reports RUNNING times out after
exactly 5 lookups. -/
theorem poll_loop_terminates_within_budget_witness :
    (pollLoop (fun _ _ => Except.ok (⟨7, 0, 0, 0, 0, "g", "RUNNING", "", "u"⟩ : DeletionTask))
        ⟨7, 0, 0, 0, 0, "g", "PENDING", "", "u"⟩ 5 0).2.length = 5 :=
  ((poll_loop_terminates_within_budget
      (fun _ _ => Except.ok (⟨7, 0, 0, 0, 0, "g", "RUNNING", "", "u"⟩ : DeletionTask))
      ⟨7, 0, 0, 0, 0, "g", "PENDING", "", "u"⟩).2.2.1
    ⟨7, 0, 0, 0, 0, "g", "RUNNING", "", "u"⟩ (by decide)).2

/-! ### The per-group units of main and the reconciler fan-out -/

/-- Responses of the remote QRadar API as observed by the units of work.
Each field models one client method of pkg/qradar/qradar.go, returning
the decoded value or the error the Go call returns. `pollResp a i` is
the response to the status lookup issued at attempt index `a` for task
ID `i`. -/
structure Env where
  deleteResp : String → Bool → Except String DeletionTask
  pollResp : Nat → Nat → Except String DeletionTask
  createResp : String → Except String ReferenceSet
  bulkResp : String → List String → Except String ReferenceSet

/-- How one unit of work ends: cleanly, or at one of the `log.Fatalf`
sites of main (which terminate the process). -/
inductive UnitResult where
  | ok
  | deleteError (e : String)
  | pollError (e : String)
  | pollTimeout
  | createError (e : String)
  | bulkError (e : String)
deriving DecidableEq, Repr

/-- The desired-group goroutine of main (lines 85-127): when a remote
set with this name exists, purge it (`DeleteReferenceSet(name, true)`),
poll the returned task, and only on COMPLETED bulk-load; when it does
not exist, create it and then bulk-load. Any failure stops the unit at
the corresponding `log.Fatalf`. Returns the unit's result and the
ordered list of requests it issued. -/
def syncUnit (env : Env) (remoteHas : Bool) (name : String) (servers : List String) :
    UnitResult × List Event :=
  if remoteHas then
    match env.deleteResp name true with
    | .error e => (.deleteError e, [.deleteReq name true])
    | .ok task =>
      match pollLoop env.pollResp task 5 0 with
      | (.httpError e, evs) => (.pollError e, .deleteReq name true :: evs)
      | (.timeout _, evs) => (.pollTimeout, .deleteReq name true :: evs)
      | (.completed _, evs) =>
        match env.bulkResp name servers with
        | .error e =>
          (.bulkError e, .deleteReq name true :: (evs ++ [.bulkLoadReq name servers]))
        | .ok _ => (.ok, .deleteReq name true :: (evs ++ [.bulkLoadReq name servers]))
  else
    match env.createResp name with
    | .error e => (.createError e, [.createReq name])
    | .ok _ =>
      match env.bulkResp name servers with
      | .error e => (.bulkError e, [.createReq name, .bulkLoadReq name servers])
      | .ok _ => (.ok, [.createReq name, .bulkLoadReq name servers])

/-- The orphan-deletion goroutine of main (lines 135-159): delete the
set outright (`DeleteReferenceSet(name, false)`) and poll the returned
task to completion. -/
def orphanUnit (env : Env) (name : String) : UnitResult × List Event :=
  match env.deleteResp name false with
  | .error e => (.deleteError e, [.deleteReq name false])
  | .ok task =>
    match pollLoop env.pollResp task 5 0 with
    | (.httpError e, evs) => (.pollError e, .deleteReq name false :: evs)
    | (.timeout _, evs) => (.pollTimeout, .deleteReq name false :: evs)
    | (.completed _, evs) => (.ok, .deleteReq name false :: evs)

/-- The remote managed names that take the orphan-deletion path of main
(lines 130-133): names of remote managed sets that have no entry in the
desired mapping. -/
def orphanNames (desired : List (String × List String)) (remoteNames : List String) :
    List String :=
  remoteNames.filter (fun n => (List.lookup n desired).isNone)

/-- The fan-out of main (lines 82-161): one sync unit per desired group
(keyed by whether a remote managed set of that name exists) and one
orphan-deletion unit per remote managed name absent from the desired
mapping, each paired with the name it works on. Go launches these as
goroutines and joins them; the claims embedded here are per-name and
per-unit, independent of the interleaving. -/
def reconcileUnits (env : Env) (desired : List (String × List String))
    (remoteNames : List String) : List (String × (UnitResult × List Event)) :=
  desired.map (fun p => (p.1, syncUnit env (remoteNames.contains p.1) p.1 p.2)) ++
    (orphanNames desired remoteNames).map (fun n => (n, orphanUnit env n))

/-- All requests issued across the run, in one linearisation. -/
def reconcileEvents (env : Env) (desired : List (String × List String))
    (remoteNames : List String) : List Event :=
  (reconcileUnits env desired remoteNames).flatMap (fun p => p.2.2)

theorem mem_of_lookup_eq_some {β : Type} {l : List (String × β)} {k : String} {v : β}
    (h : List.lookup k l = some v) : (k, v) ∈ l := by
  induction l with
  | nil => simp [List.lookup] at h
  | cons p rest ih =>
    obtain ⟨k2, v2⟩ := p
    by_cases hk : k = k2
    · subst hk
      simp [List.lookup] at h
      simp [h]
    · simp [List.lookup, beq_eq_false_iff_ne.mpr hk] at h
      exact List.mem_cons_of_mem _ (ih h)

/-- Every event a sync unit can issue: the purge (purge-only true), a
poll, the create, or the bulk load — in particular never a delete with
purge-only false. -/
theorem syncUnit_trace_events (env : Env) (rh : Bool) (name : String)
    (servers : List String) :
    ∀ ev ∈ (syncUnit env rh name servers).2,
      ev = Event.deleteReq name true ∨ (∃ i, ev = Event.pollReq i) ∨
        ev = Event.createReq name ∨ ev = Event.bulkLoadReq name servers := by
  cases rh with
  | false =>
    rcases hc : env.createResp name with e | r
    · simp [syncUnit, hc]
    · rcases hb : env.bulkResp name servers with e | r2 <;> simp [syncUnit, hc, hb]
  | true =>
    rcases hd : env.deleteResp name true with e | task
    · simp [syncUnit, hd]
    · have hall := pollLoop_events_all_pollReq env.pollResp task 5 0
      rcases hp : pollLoop env.pollResp task 5 0 with ⟨out, evs⟩
      rw [hp] at hall
      cases out with
      | httpError e =>
        simp only [syncUnit, hd, hp]
        intro ev hev
        rcases List.mem_cons.mp hev with rfl | hev2
        · exact Or.inl rfl
        · exact Or.inr (Or.inl (hall ev hev2))
      | timeout t2 =>
        simp only [syncUnit, hd, hp]
        intro ev hev
        rcases List.mem_cons.mp hev with rfl | hev2
        · exact Or.inl rfl
        · exact Or.inr (Or.inl (hall ev hev2))
      | completed t2 =>
        rcases hb : env.bulkResp name servers with e | r2 <;>
        · simp only [syncUnit, hd, hp, hb]
          intro ev hev
          rcases List.mem_cons.mp hev with rfl | hev2
          · exact Or.inl rfl
          · rcases List.mem_append.mp hev2 with hev3 | hev4
            · exact Or.inr (Or.inl (hall ev hev3))
            · simp at hev4
              simp [hev4]

/-- An orphan-deletion unit issues the outright delete (purge-only
false) first, followed only by poll lookups. -/
theorem orphanUnit_trace (env : Env) (name : String) :
    ∃ evs, (orphanUnit env name).2 = Event.deleteReq name false :: evs ∧
      ∀ ev ∈ evs, ∃ i, ev = Event.pollReq i := by
  rcases hd : env.deleteResp name false with e | task
  · exact ⟨[], by simp [orphanUnit, hd], by simp⟩
  · have hall := pollLoop_events_all_pollReq env.pollResp task 5 0
    rcases hp : pollLoop env.pollResp task 5 0 with ⟨out, evs⟩
    rw [hp] at hall
    cases out <;> exact ⟨evs, by simp [orphanUnit, hd, hp], hall⟩

/-- **C1**: a group named in the desired mapping is never deleted
outright: across the whole run no delete request with purge-only false
is ever issued for its name, and when a remote managed set with that
name exists, the purge-only-true delete request is issued for it. -/
theorem desired_group_never_deleted_outright
    (env : Env) (desired : List (String × List String)) (remoteNames : List String)
    (name : String) (hdes : (List.lookup name desired).isSome) :
    Event.deleteReq name false ∉ reconcileEvents env desired remoteNames ∧
    (name ∈ remoteNames →
      Event.deleteReq name true ∈ reconcileEvents env desired remoteNames) := by
  constructor
  · intro hmem
    rcases List.mem_flatMap.mp hmem with ⟨p, hp, hev⟩
    rcases List.mem_append.mp hp with hleft | hright
    · rcases List.mem_map.mp hleft with ⟨q, hq, rfl⟩
      rcases syncUnit_trace_events env (remoteNames.contains q.1) q.1 q.2 _ hev with
        h1 | ⟨i, h1⟩ | h1 | h1 <;> simp at h1
    · rcases List.mem_map.mp hright with ⟨n, hn, rfl⟩
      rcases orphanUnit_trace env n with ⟨evs, htr, hpoll⟩
      rw [htr] at hev
      rcases List.mem_cons.mp hev with heq | hev2
      · have hname : name = n := by
          injection heq
        subst hname
        have hnone := (List.mem_filter.mp hn).2
        rw [Option.isNone_iff_eq_none] at hnone
        rw [hnone] at hdes
        simp at hdes
      · rcases hpoll _ hev2 with ⟨i, hi⟩
        exact Event.noConfusion hi
  · intro hr
    rcases Option.isSome_iff_exists.mp hdes with ⟨servers, hs⟩
    have hmem : (name, servers) ∈ desired := mem_of_lookup_eq_some hs
    have hcontains : remoteNames.contains name = true := List.elem_eq_true_of_mem hr
    have hunit : (name, syncUnit env true name servers) ∈
        reconcileUnits env desired remoteNames := by
      apply List.mem_append_left
      have hmap : (name, syncUnit env (remoteNames.contains name) name servers) ∈
          List.map (fun p => (p.1, syncUnit env (remoteNames.contains p.1) p.1 p.2)) desired :=
        List.mem_map_of_mem (fun p => (p.1, syncUnit env (remoteNames.contains p.1) p.1 p.2)) hmem
      rw [hcontains] at hmap
      exact hmap
    apply List.mem_flatMap.mpr
    refine ⟨(name, syncUnit env true name servers), hunit, ?_⟩
    rcases hd : env.deleteResp name true with e | task
    · simp [syncUnit, hd]
    · rcases hp : pollLoop env.pollResp task 5 0 with ⟨out, evs⟩
      cases out <;> rcases hb : env.bulkResp name servers with e | r2 <;>
        simp [syncUnit, hd, hp, hb]

/-- Witness for C1: one desired group that exists remotely and one
orphaned remote set. -/
theorem desired_group_never_deleted_outright_witness :
    Event.deleteReq "Managed UNIX Devices - east" false ∉
      reconcileEvents
        ⟨fun _ _ => Except.error "down", fun _ _ => Except.error "down",
          fun _ => Except.error "down", fun _ _ => Except.error "down"⟩
        [("Managed UNIX Devices - east", ["10.0.0.1"])]
        ["Managed UNIX Devices - east", "Managed UNIX Devices - west"] ∧
    ("Managed UNIX Devices - east" ∈
        ["Managed UNIX Devices - east", "Managed UNIX Devices - west"] →
      Event.deleteReq "Managed UNIX Devices - east" true ∈
        reconcileEvents
          ⟨fun _ _ => Except.error "down", fun _ _ => Except.error "down",
            fun _ => Except.error "down", fun _ _ => Except.error "down"⟩
          [("Managed UNIX Devices - east", ["10.0.0.1"])]
          ["Managed UNIX Devices - east", "Managed UNIX Devices - west"]) :=
  desired_group_never_deleted_outright
    ⟨fun _ _ => Except.error "down", fun _ _ => Except.error "down",
      fun _ => Except.error "down", fun _ _ => Except.error "down"⟩
    [("Managed UNIX Devices - east", ["10.0.0.1"])]
    ["Managed UNIX Devices - east", "Managed UNIX Devices - west"]
    "Managed UNIX Devices - east" (by decide)

/-- A remote environment whose calls all succeed, for concrete runs of
the embedding. -/
def envAllOk : Env where
  deleteResp := fun _ _ => Except.ok ⟨7, 0, 0, 0, 0, "g", "COMPLETED", "", "admin"⟩
  pollResp := fun _ _ => Except.ok ⟨7, 0, 0, 0, 0, "g", "COMPLETED", "", "admin"⟩
  createResp := fun n => Except.ok ⟨n, "IP", "FIRST_SEEN", "", 0, 0⟩
  bulkResp := fun n s => Except.ok ⟨n, "IP", "FIRST_SEEN", "", 0, s.length⟩

/-- **C3**: a group's bulk-load request is issued exactly when the
preceding step of its unit succeeded — for an existing group the purge
request was accepted and its deletion task was polled to an observed
COMPLETED status, for a new group the create call returned without
error — and when issued it is the final request of the unit, loading
the group's member list. On purge failure, poll failure, poll timeout
or create failure, no bulk-load is issued. -/
theorem bulk_load_only_after_success
    (env : Env) (rh : Bool) (name : String) (servers : List String) :
    ((∃ s, Event.bulkLoadReq name s ∈ (syncUnit env rh name servers).2) ↔
      ((rh = true ∧ ∃ task, env.deleteResp name true = Except.ok task ∧
          ∃ t2, (pollLoop env.pollResp task 5 0).1 = PollOutcome.completed t2 ∧
            t2.status = "COMPLETED") ∨
        (rh = false ∧ ∃ r, env.createResp name = Except.ok r))) ∧
    (∀ s, Event.bulkLoadReq name s ∈ (syncUnit env rh name servers).2 →
      s = servers ∧
      ∃ pre, (syncUnit env rh name servers).2 = pre ++ [Event.bulkLoadReq name servers]) := by
  cases rh with
  | false =>
    rcases hc : env.createResp name with e | r
    · exact ⟨by simp [syncUnit, hc], by simp [syncUnit, hc]⟩
    · rcases hb : env.bulkResp name servers with e | r2 <;>
      · refine ⟨?_, ?_⟩
        · constructor
          · intro _
            exact Or.inr ⟨rfl, r, rfl⟩
          · intro _
            exact ⟨servers, by simp [syncUnit, hc, hb]⟩
        · intro s hs
          simp [syncUnit, hc, hb] at hs
          subst hs
          exact ⟨rfl, [Event.createReq name], by simp [syncUnit, hc, hb]⟩
  | true =>
    rcases hd : env.deleteResp name true with e | task
    · exact ⟨by simp [syncUnit, hd], by simp [syncUnit, hd]⟩
    · have hall := pollLoop_events_all_pollReq env.pollResp task 5 0
      rcases hp : pollLoop env.pollResp task 5 0 with ⟨out, evs⟩
      rw [hp] at hall
      have hfail : ∀ s, Event.bulkLoadReq name s ∉ Event.deleteReq name true :: evs := by
        intro s hs
        rcases List.mem_cons.mp hs with h1 | h2
        · exact Event.noConfusion h1
        · rcases hall _ h2 with ⟨i, hi⟩
          exact Event.noConfusion hi
      cases out with
      | httpError e =>
        refine ⟨?_, ?_⟩
        · constructor
          · rintro ⟨s, hs⟩
            rw [show (syncUnit env true name servers).2 =
              Event.deleteReq name true :: evs by simp [syncUnit, hd, hp]] at hs
            exact absurd hs (hfail s)
          · rintro (⟨-, task2, htask, t2, hcomp, -⟩ | ⟨hfalse, -⟩)
            · injection htask with htask2
              subst htask2
              rw [hp] at hcomp
              exact PollOutcome.noConfusion hcomp
            · exact Bool.noConfusion hfalse
        · intro s hs
          rw [show (syncUnit env true name servers).2 =
            Event.deleteReq name true :: evs by simp [syncUnit, hd, hp]] at hs
          exact absurd hs (hfail s)
      | timeout t2 =>
        refine ⟨?_, ?_⟩
        · constructor
          · rintro ⟨s, hs⟩
            rw [show (syncUnit env true name servers).2 =
              Event.deleteReq name true :: evs by simp [syncUnit, hd, hp]] at hs
            exact absurd hs (hfail s)
          · rintro (⟨-, task2, htask, t3, hcomp, -⟩ | ⟨hfalse, -⟩)
            · injection htask with htask2
              subst htask2
              rw [hp] at hcomp
              exact PollOutcome.noConfusion hcomp
            · exact Bool.noConfusion hfalse
        · intro s hs
          rw [show (syncUnit env true name servers).2 =
            Event.deleteReq name true :: evs by simp [syncUnit, hd, hp]] at hs
          exact absurd hs (hfail s)
      | completed t2 =>
        have hstat : t2.status = "COMPLETED" :=
          pollLoop_completed_status env.pollResp task 5 0 t2 (by rw [hp])
        rcases hb : env.bulkResp name servers with e | r2 <;>
        · refine ⟨?_, ?_⟩
          · constructor
            · intro _
              exact Or.inl ⟨rfl, task, rfl, t2, by rw [hp], hstat⟩
            · intro _
              exact ⟨servers, by simp [syncUnit, hd, hp, hb]⟩
          · intro s hs
            rw [show (syncUnit env true name servers).2 = Event.deleteReq name true ::
              (evs ++ [Event.bulkLoadReq name servers]) by simp [syncUnit, hd, hp, hb]] at hs
            rcases List.mem_cons.mp hs with h1 | h2
            · exact Event.noConfusion h1
            · rcases List.mem_append.mp h2 with h3 | h4
              · rcases hall _ h3 with ⟨i, hi⟩
                exact Event.noConfusion hi
              · simp at h4
                subst h4
                refine ⟨rfl, Event.deleteReq name true :: evs, ?_⟩
                simp [syncUnit, hd, hp, hb]

/-- Witness for C3: with a healthy remote environment, the unit for a
new group does issue the bulk-load. -/
theorem bulk_load_only_after_success_witness :
    ∃ s, Event.bulkLoadReq "Managed UNIX Devices - east" s ∈
      (syncUnit envAllOk false "Managed UNIX Devices - east" ["10.0.0.1"]).2 :=
  (bulk_load_only_after_success envAllOk false "Managed UNIX Devices - east" ["10.0.0.1"]).1.mpr
    (Or.inr ⟨rfl, ⟨"Managed UNIX Devices - east", "IP", "FIRST_SEEN", "", 0, 0⟩, rfl⟩)

theorem syncUnit_count_delete_false (env : Env) (rh : Bool) (n m : String)
    (servers : List String) :
    (syncUnit env rh n servers).2.count (Event.deleteReq m false) = 0 := by
  rw [List.count_eq_zero]
  intro hmem
  rcases syncUnit_trace_events env rh n servers _ hmem with h | ⟨i, h⟩ | h | h
  · injection h with h1 h2
    exact Bool.noConfusion h2
  · exact Event.noConfusion h
  · exact Event.noConfusion h
  · exact Event.noConfusion h

theorem orphanUnit_count_delete_false (env : Env) (n m : String) :
    (orphanUnit env n).2.count (Event.deleteReq m false) = if m = n then 1 else 0 := by
  rcases orphanUnit_trace env n with ⟨evs, htr, hpoll⟩
  rw [htr]
  have hevs : evs.count (Event.deleteReq m false) = 0 := by
    rw [List.count_eq_zero]
    intro hmem
    rcases hpoll _ hmem with ⟨i, hi⟩
    exact Event.noConfusion hi
  by_cases hm : m = n
  · subst hm
    simp [List.count_cons, hevs]
  · simp [List.count_cons, hevs, hm]

theorem count_delete_false_sync_part (env : Env) (desired : List (String × List String))
    (remoteNames : List String) (name : String) :
    ((desired.map (fun p => (p.1, syncUnit env (remoteNames.contains p.1) p.1 p.2))).flatMap
      (fun p => p.2.2)).count (Event.deleteReq name false) = 0 := by
  induction desired with
  | nil => simp
  | cons p t ih =>
    rw [List.map_cons, List.flatMap_cons, List.count_append, ih,
      syncUnit_count_delete_false]

theorem count_delete_false_orphan_part (env : Env) (l : List String) (name : String) :
    ((l.map (fun n => (n, orphanUnit env n))).flatMap (fun p => p.2.2)).count
      (Event.deleteReq name false) = l.count name := by
  induction l with
  | nil => simp
  | cons a t ih =>
    rw [List.map_cons, List.flatMap_cons, List.count_append, ih,
      orphanUnit_count_delete_false]
    by_cases hna : name = a
    · subst hna
      simp [List.count_cons, Nat.add_comm]
    · simp [List.count_cons, hna, beq_iff_eq]

/-- **C4**: a remote managed set whose name is absent from the desired
mapping is processed by the orphan-deletion path: across the whole run
exactly one delete request with purge-only false is issued for its name,
that request opens its unit's trace, and only poll lookups of the
returned deletion task follow it; names present in the desired mapping
never enter the orphan-deletion path. -/
theorem orphan_set_deleted_outright
    (env : Env) (desired : List (String × List String)) (remoteNames : List String)
    (name : String) (hnd : remoteNames.Nodup)
    (hr : name ∈ remoteNames) (hd : List.lookup name desired = none) :
    (reconcileEvents env desired remoteNames).count (Event.deleteReq name false) = 1 ∧
    (∃ evs, (orphanUnit env name).2 = Event.deleteReq name false :: evs ∧
      ∀ ev ∈ evs, ∃ i, ev = Event.pollReq i) ∧
    (name, orphanUnit env name) ∈ reconcileUnits env desired remoteNames ∧
    (∀ m, (List.lookup m desired).isSome → m ∉ orphanNames desired remoteNames) := by
  have hmemo : name ∈ orphanNames desired remoteNames :=
    List.mem_filter.mpr ⟨hr, by simp [hd]⟩
  refine ⟨?_, orphanUnit_trace env name, ?_, ?_⟩
  · have hcount1 : (orphanNames desired remoteNames).count name = 1 :=
      List.count_eq_one_of_mem (List.Nodup.filter _ hnd) hmemo
    rw [reconcileEvents, reconcileUnits, List.flatMap_append, List.count_append,
      count_delete_false_sync_part, count_delete_false_orphan_part, hcount1]
  · exact List.mem_append_right _
      (List.mem_map_of_mem (fun n => (n, orphanUnit env n)) hmemo)
  · intro m hm hmem
    have hnone := (List.mem_filter.mp hmem).2
    rw [Option.isNone_iff_eq_none] at hnone
    rw [hnone] at hm
    simp at hm

/-- Witness for C4: one desired group and one orphaned remote set
against a healthy environment. -/
theorem orphan_set_deleted_outright_witness :
    (reconcileEvents envAllOk [("Managed UNIX Devices - east", ["10.0.0.1"])]
        ["Managed UNIX Devices - west"]).count
      (Event.deleteReq "Managed UNIX Devices - west" false) = 1 ∧
    (∃ evs, (orphanUnit envAllOk "Managed UNIX Devices - west").2 =
        Event.deleteReq "Managed UNIX Devices - west" false :: evs ∧
      ∀ ev ∈ evs, ∃ i, ev = Event.pollReq i) ∧
    ("Managed UNIX Devices - west", orphanUnit envAllOk "Managed UNIX Devices - west") ∈
      reconcileUnits envAllOk [("Managed UNIX Devices - east", ["10.0.0.1"])]
        ["Managed UNIX Devices - west"] ∧
    (∀ m, (List.lookup m [("Managed UNIX Devices - east", ["10.0.0.1"])]).isSome →
      m ∉ orphanNames [("Managed UNIX Devices - east", ["10.0.0.1"])]
        ["Managed UNIX Devices - west"]) :=
  orphan_set_deleted_outright envAllOk [("Managed UNIX Devices - east", ["10.0.0.1"])]
    ["Managed UNIX Devices - west"] "Managed UNIX Devices - west"
    (by decide) (by decide) (by decide)

/-! ### The remote-state mapping of main (lines 75-80) -/

/-- Go `strings.HasPrefix(s, p)`, on the character sequences of the two
strings. -/
def goHasPrefix (s p : String) : Bool := p.data.isPrefixOf s.data

/-- The range loop of main (lines 75-80) that builds `unixRefSets`,
embedded with the pre-Go-1.22 `for ... range` semantics the repository
compiles under (it declares no Go language version): `set` is one loop
variable reused by every iteration and `unixRefSets[name] = &set` stores
its address, so every map entry holds the same pointer. The loop state
is the list of managed keys inserted so far together with the current
value of the loop variable. -/
def buildUnixRefSetsLoop (allRefSets : List ReferenceSet) :
    List String × Option ReferenceSet :=
  allRefSets.foldl
    (fun st set =>
      (if goHasPrefix set.name unixRefSetPfx then st.1 ++ [set.name] else st.1, some set))
    ([], none)

/-- Reading `unixRefSets[name]` after the loop has finished: the entry
exists iff `name` was inserted, and its stored pointer dereferences to
the loop variable's final value. -/
def unixRefSetsRead (allRefSets : List ReferenceSet) (name : String) :
    Option ReferenceSet :=
  if name ∈ (buildUnixRefSetsLoop allRefSets).1 then (buildUnixRefSetsLoop allRefSets).2
  else none

/-- Modelled from the spec: "filter to those whose name starts with the
managed naming prefix, and return a mapping from name to remote set
metadata" — each managed name maps to the metadata of the set bearing
that name. -/
def unixRefSetsSpec (allRefSets : List ReferenceSet) (name : String) :
    Option ReferenceSet :=
  (allRefSets.filter (fun s => goHasPrefix s.name unixRefSetPfx)).find?
    (fun s => s.name == name)

/-- Two managed remote sets with distinct metadata. -/
def refSetEast : ReferenceSet :=
  ⟨"Managed UNIX Devices - east", "IP", "FIRST_SEEN", "", 1, 10⟩

def refSetWest : ReferenceSet :=
  ⟨"Managed UNIX Devices - west", "IP", "FIRST_SEEN", "", 2, 20⟩

/-- **C7** (refuted by the code as written): the mapping built by main
stores the address of the shared range-loop variable, so once the loop
ends every managed entry dereferences to the last element iterated: with
two managed sets, the first set's name maps to the second set's
metadata, not its own, while the spec-modelled mapping returns the set
bearing the name. -/
theorem unixRefSets_entry_aliases_last_set :
    unixRefSetsRead [refSetEast, refSetWest] "Managed UNIX Devices - east" = some refSetWest ∧
    unixRefSetsSpec [refSetEast, refSetWest] "Managed UNIX Devices - east" = some refSetEast ∧
    refSetEast ≠ refSetWest := by
  decide

/-! ### Pre-flight exit codes of main (lines 56-73) -/

/-- Exit code produced by Go's `log.Fatalf`: it prints and then calls
`os.Exit(1)`. -/
def logFatalExit : Nat := 1

/-- The pre-flight of main (lines 56-73): missing URL or token prints
the flag defaults and exits 1; an extraction error hits `log.Fatalf`
(which terminates the process with code 1, making the `os.Exit(2)` on
the next line unreachable); a listing error likewise hits `log.Fatalf`
before the unreachable `os.Exit(3)`. Returns `some code` when the
process exits during pre-flight and `none` when it proceeds to
reconciliation. -/
def mainPreflightExit (url token : String)
    (extractResult : Except String (List (String × List String)))
    (listResult : Except String (List ReferenceSet)) : Option Nat :=
  if url = "" ∨ token = "" then some 1
  else
    match extractResult with
    | .error _ => some logFatalExit
    | .ok _ =>
      match listResult with
      | .error _ => some logFatalExit
      | .ok _ => none

/-- **C8** (refuted by the code as written): missing configuration does
exit with code 1, but an extraction failure and a listing failure also
exit with code 1 — `log.Fatalf` terminates the process before the
`os.Exit(2)` and `os.Exit(3)` calls can run — so the documented codes 2
and 3 are never produced. -/
theorem preflight_exit_codes_collapse_to_one :
    mainPreflightExit "" "tok" (Except.ok []) (Except.ok []) = some 1 ∧
    mainPreflightExit "https://qradar" "" (Except.ok []) (Except.ok []) = some 1 ∧
    mainPreflightExit "https://qradar" "tok" (Except.error "bad csv") (Except.ok []) = some 1 ∧
    mainPreflightExit "https://qradar" "tok" (Except.ok []) (Except.error "http down") = some 1 ∧
    mainPreflightExit "https://qradar" "tok" (Except.error "bad csv") (Except.ok []) ≠ some 2 ∧
    mainPreflightExit "https://qradar" "tok" (Except.ok []) (Except.error "http down") ≠ some 3 := by
  decide

end QTools
